import Mathlib

/-!
Verification of the capability lifecycle core of the forgetful-loop engine:
the capability registry (`src/capability.py`), the decay engine
(`src/decay_engine.py`), the safety layer's status classification
(`src/safety.py`) and the introspector's health metric
(`src/introspection.py`), embedded shallowly.

Modelling conventions:
- Python dicts are insertion-ordered association lists; assignment updates
  the existing entry in place, or appends a new one at the end.
- Python floats are modelled as exact rationals.
- Capability implementations are kept opaque: only their identity (the
  original counting wrapper installed by registration, the approximation
  replacement, the stub replacement) and their side effect on
  `execution_count` are modelled; the value a capability returns is
  collapsed into a single `value` outcome, and the approximation wrapper's
  perturbation of returned values is not modelled since no claim mentions
  returned values.
- `random.Random(seed)` is modelled as a deterministic pseudo-random
  stream fully determined by the seed (a linear congruential generator);
  the development relies only on the stream being a deterministic function
  of the seed, which is equally true of the source's Mersenne Twister.
- `time.time()` is passed in explicitly as a rational timestamp argument.
-/

namespace Lethe

/-- The six-level `Importance` IntEnum of `capability.py`. -/
inductive Importance where
  | trivial
  | low
  | medium
  | high
  | critical
  | essential
deriving DecidableEq

/-- The numeric value of the `IntEnum` tier: TRIVIAL = 1 up to ESSENTIAL = 6. -/
def Importance.rank : Importance → Nat
  | .trivial => 1
  | .low => 2
  | .medium => 3
  | .high => 4
  | .critical => 5
  | .essential => 6

/-- The three shapes an entry of `CapabilityRegistry._capabilities` can take:
the counting wrapper created by `register`/`register_function` (closing over
the registration name whose metadata it increments), the replacement
installed by `DecayEngine.create_approximation`, and the replacement
installed by `DecayEngine.create_stub`. -/
inductive Impl where
  | wrapper (capname : String)
  | approximated
  | stub
deriving DecidableEq

/-- `CapabilityMetadata` of `capability.py`. `original_function` is modelled
only by whether it is present (`has_original`), which is what
`DecayEngine.apply_decay` tests. -/
structure CapabilityMetadata where
  name : String
  importance : Importance
  dependencies : List String
  degradation_resistance : ℚ
  description : String
  has_original : Bool
  is_degraded : Bool
  degradation_level : Nat
  execution_count : Nat
deriving DecidableEq

/-- Python's built-in `max` on two numbers, written as a comparison so that
concrete instances evaluate. -/
def ratMax (a b : ℚ) : ℚ := if a ≤ b then b else a

/-- Python's built-in `min` on two numbers. -/
def ratMin (a b : ℚ) : ℚ := if a ≤ b then a else b

/-- First-match lookup in an association list (Python dict lookup). -/
def alookup {α : Type} (l : List (String × α)) (k : String) : Option α :=
  match l with
  | [] => none
  | (k', v) :: t => if k' = k then some v else alookup t k

/-- Dict assignment: update the entry for `k` in place if it exists,
otherwise append a new entry at the end (insertion order). -/
def aset {α : Type} (l : List (String × α)) (k : String) (v : α) : List (String × α) :=
  match l with
  | [] => [(k, v)]
  | (k', v') :: t => if k' = k then (k, v) :: t else (k', v') :: aset t k v

/-- Update the value stored at `k` if present; otherwise leave the list
unchanged (Python `if name in d: d[name].field = ...`). -/
def aupdate {α : Type} (l : List (String × α)) (k : String) (f : α → α) : List (String × α) :=
  match l with
  | [] => []
  | (k', v') :: t => if k' = k then (k', f v') :: t else (k', v') :: aupdate t k f

/-- The mutable state of `CapabilityRegistry`. -/
structure Registry where
  capabilities : List (String × Impl)
  metadata : List (String × CapabilityMetadata)
  degraded : List String
  deleted : List String
deriving DecidableEq

/-- A freshly constructed `CapabilityRegistry`. -/
def emptyRegistry : Registry := ⟨[], [], [], []⟩

/-- Outcome of `CapabilityRegistry.execute`: `unavailable` is the `None`
returned for a deleted capability, `notFound` is the raised `KeyError`,
`value` is a normal return from the stored implementation. -/
inductive ExecResult where
  | unavailable
  | notFound
  | value
deriving DecidableEq

namespace Registry

/-- `CapabilityRegistry.get_metadata`. -/
def lookupMeta (r : Registry) (name : String) : Option CapabilityMetadata :=
  alookup r.metadata name

/-- `CapabilityRegistry.register_function`: installs the counting wrapper and
fresh metadata with the resistance clamped into `[0, 1]`, level `0`. -/
def register_function (r : Registry) (name : String) (importance : Importance)
    (dependencies : List String) (degradation_resistance : ℚ)
    (description : String) : Registry :=
  { r with
    capabilities := aset r.capabilities name (Impl.wrapper name)
    metadata := aset r.metadata name
      { name := name
        importance := importance
        dependencies := dependencies
        degradation_resistance := ratMax 0 (ratMin 1 degradation_resistance)
        description := description
        has_original := true
        is_degraded := false
        degradation_level := 0
        execution_count := 0 } }

/-- `CapabilityRegistry.get`: `None` for a deleted name, else the stored
implementation (or `None` when absent). -/
def get (r : Registry) (name : String) : Option Impl :=
  if name ∈ r.deleted then none else alookup r.capabilities name

/-- `CapabilityRegistry.execute`: a deleted name returns `None`
(`unavailable`); an unknown name raises `KeyError` (`notFound`); otherwise
the stored implementation runs — only the original counting wrapper
increments `execution_count` of the name it closed over. -/
def execute (r : Registry) (name : String) : ExecResult × Registry :=
  if name ∈ r.deleted then (ExecResult.unavailable, r)
  else
    match alookup r.capabilities name with
    | none => (ExecResult.notFound, r)
    | some (Impl.wrapper capname) =>
      if (alookup r.metadata capname).isSome then
        (ExecResult.value,
          { r with metadata := (aupdate r.metadata capname
              (fun m => { m with execution_count := m.execution_count + 1 })) })
      else (ExecResult.value, r)
    | some Impl.approximated => (ExecResult.value, r)
    | some Impl.stub => (ExecResult.value, r)

/-- `CapabilityRegistry.list_capabilities`. -/
def list_capabilities (r : Registry) : List String :=
  (r.capabilities.map Prod.fst).filter (fun n => decide (n ∉ r.deleted))

/-- `CapabilityRegistry.list_active_capabilities`. -/
def list_active_capabilities (r : Registry) : List String :=
  (r.metadata.filter (fun p => !p.2.is_degraded && decide (p.1 ∉ r.deleted))).map Prod.fst

/-- `CapabilityRegistry.capability_count` (length of `_capabilities`,
deleted entries included). -/
def capability_count (r : Registry) : Nat := r.capabilities.length

/-- `CapabilityRegistry.mark_degraded`: only acts when the name has
metadata; sets the flag and level and appends to the degraded list once. -/
def mark_degraded (r : Registry) (name : String) (level : Nat) : Registry :=
  if (alookup r.metadata name).isSome then
    { r with
      metadata := (aupdate r.metadata name
        (fun m => { m with is_degraded := true, degradation_level := level }))
      degraded := if name ∈ r.degraded then r.degraded else r.degraded ++ [name] }
  else r

/-- `CapabilityRegistry.mark_deleted`: appends to the deleted list if not
already there (with no metadata check), then `mark_degraded(name, 3)`. -/
def mark_deleted (r : Registry) (name : String) : Registry :=
  mark_degraded
    { r with deleted := if name ∈ r.deleted then r.deleted else r.deleted ++ [name] }
    name 3

/-- `CapabilityRegistry.replace_capability`: swaps the stored implementation
when present, touching nothing else. -/
def replace_capability (r : Registry) (name : String) (impl : Impl) : Registry :=
  if (alookup r.capabilities name).isSome then
    { r with capabilities := aupdate r.capabilities name (fun _ => impl) }
  else r

/-- Strict comparison on the Python sort key
`(meta.importance, meta.degradation_resistance)` used by
`get_degradation_candidates`. -/
def candLt (a b : String × CapabilityMetadata) : Bool :=
  decide (a.2.importance.rank < b.2.importance.rank ∨
    (a.2.importance.rank = b.2.importance.rank ∧
      a.2.degradation_resistance < b.2.degradation_resistance))

/-- Insert `x` before the first element it is strictly smaller than;
equal-key elements already in the list stay in front (stability). -/
def insertStable {α : Type} (lt : α → α → Bool) (x : α) : List α → List α
  | [] => [x]
  | y :: ys => if lt x y then x :: y :: ys else y :: insertStable lt x ys

/-- Stable sort modelling Python `list.sort(key=...)`: fold the elements in
original order into a sorted accumulator. -/
def sortStable {α : Type} (lt : α → α → Bool) (l : List α) : List α :=
  l.foldl (fun acc x => insertStable lt x acc) []

/-- `CapabilityRegistry.get_degradation_candidates`: non-essential, not
deleted, level below 3; sorted by ascending importance then ascending
resistance. -/
def get_degradation_candidates (r : Registry) : List String :=
  let cands := r.metadata.filter (fun p =>
    decide (p.2.importance ≠ Importance.essential) &&
    decide (p.1 ∉ r.deleted) &&
    decide (p.2.degradation_level < 3))
  (sortStable candLt cands).map Prod.fst

end Registry

/-- `DecayEvent` of `decay_engine.py`. -/
structure DecayEvent where
  timestamp : ℚ
  capability_name : String
  decay_type : String
  old_level : Nat
  new_level : Nat
deriving DecidableEq

/-- State of the pseudo-random stream standing in for `random.Random`. -/
structure RngState where
  state : Nat
deriving DecidableEq

/-- Modulus of the linear congruential generator used to model the
deterministic pseudo-random stream. -/
def rngModulus : Nat := 2 ^ 31

/-- `random.Random(seed)`: the stream is a pure function of the seed. -/
def RngState.ofSeed (seed : Nat) : RngState := ⟨seed % rngModulus⟩

/-- `Random.random()`: one uniform draw in `[0, 1)` together with the
successor stream state. -/
def RngState.next (g : RngState) : ℚ × RngState :=
  let s := (g.state * 1103515245 + 12345) % rngModulus
  ((s : ℚ) / (rngModulus : ℚ), ⟨s⟩)

/-- The mutable state of `DecayEngine` (the shared registry is owned here
because state is passed explicitly). -/
structure DecayEngine where
  registry : Registry
  decay_interval : ℚ
  decay_probability : ℚ
  decay_history : List DecayEvent
  last_decay_time : ℚ
  total_decays : Nat
  is_enabled : Bool
  rng : RngState
deriving DecidableEq

/-- `DecayEngine.__init__`: stores `decay_interval` and `decay_probability`
exactly as given (no clamping or flooring happens here), empty history,
engine enabled, stream seeded from `seed`; `now` models the
`time.time()` call that initializes `_last_decay_time`. -/
def mkDecayEngine (registry : Registry) (decay_interval decay_probability : ℚ)
    (seed : Nat) (now : ℚ) : DecayEngine :=
  { registry := registry
    decay_interval := decay_interval
    decay_probability := decay_probability
    decay_history := []
    last_decay_time := now
    total_decays := 0
    is_enabled := true
    rng := RngState.ofSeed seed }

namespace DecayEngine

/-- The `decay_interval` property setter: floors the value at `1.0`. -/
def setDecayInterval (e : DecayEngine) (v : ℚ) : DecayEngine :=
  { e with decay_interval := ratMax 1 v }

/-- The `decay_probability` property setter: clamps the value into
`[0, 1]`. -/
def setDecayProbability (e : DecayEngine) (v : ℚ) : DecayEngine :=
  { e with decay_probability := ratMax 0 (ratMin 1 v) }

/-- `DecayEngine.should_decay`: disabled or within the interval aborts
without touching the stream; otherwise one draw is compared against
`decay_probability`. -/
def should_decay (e : DecayEngine) (now : ℚ) : Bool × RngState :=
  if !e.is_enabled then (false, e.rng)
  else if now - e.last_decay_time < e.decay_interval then (false, e.rng)
  else
    let p := e.rng.next
    (decide (p.1 < e.decay_probability), p.2)

/-- The weight `DecayEngine.select_target` computes for one candidate:
`(7 - importance) / 6.0` times `1.0 - degradation_resistance`, times
`(3 - degradation_level) / 3.0` when already degraded, floored at `0.01`;
a candidate without metadata gets bare `0.01`. -/
def candidateWeight (r : Registry) (name : String) : ℚ :=
  match r.lookupMeta name with
  | some m =>
    let iw : ℚ := ((7 : ℚ) - (m.importance.rank : ℚ)) / 6
    let rw : ℚ := 1 - m.degradation_resistance
    let w : ℚ := iw * rw
    let w' : ℚ :=
      if m.is_degraded then w * (((3 : ℚ) - (m.degradation_level : ℚ)) / 3) else w
    ratMax (1 / 100) w'
  | none => 1 / 100

/-- The full weight list built by `DecayEngine.select_target`, aligned with
`get_degradation_candidates()`. -/
def candidateWeights (r : Registry) : List ℚ :=
  (r.get_degradation_candidates).map (candidateWeight r)

/-- The roulette-wheel scan of `select_target`: first candidate whose
cumulative weight reaches the draw. -/
def roulette : List String → List ℚ → ℚ → ℚ → Option String
  | c :: cs, w :: ws, r, cum => if r ≤ cum + w then some c else roulette cs ws r (cum + w)
  | _, _, _, _ => none

/-- `DecayEngine.select_target`: `None` with the stream untouched when
there are no candidates; otherwise one draw scaled by the total weight
drives the roulette scan, falling back to the last candidate. -/
def select_target (e : DecayEngine) : Option String × RngState :=
  let cands := e.registry.get_degradation_candidates
  if cands.isEmpty then (none, e.rng)
  else
    let ws := candidateWeights e.registry
    let p := e.rng.next
    match roulette cands ws (p.1 * ws.sum) 0 with
    | some c => (some c, p.2)
    | none => (cands.getLast?, p.2)

/-- The registry transformation performed by `DecayEngine.apply_decay`,
with the decay type, old level and new level it reports: `None` for an
unknown name, an essential capability, or a level already at 3; otherwise
level `old + 1` with the matching replacement/deletion effect followed by
`mark_degraded(name, new_level)`. -/
def applyDecayCore (r : Registry) (name : String) :
    Option (Registry × String × Nat × Nat) :=
  match r.lookupMeta name with
  | none => none
  | some m =>
    if m.importance = Importance.essential then none
    else if m.degradation_level + 1 > 3 then none
    else
      let old := m.degradation_level
      let nw := old + 1
      let r1 :=
        if nw = 1 then
          if m.has_original then r.replace_capability name Impl.approximated else r
        else if nw = 2 then r.replace_capability name Impl.stub
        else r.mark_deleted name
      let dt :=
        if nw = 1 then (if m.has_original then "approximate" else "")
        else if nw = 2 then "stub"
        else "delete"
      some (r1.mark_degraded name nw, dt, old, nw)

/-- `DecayEngine.apply_decay`: on success appends the `DecayEvent`, bumps
the running total and updates the last-decay time; otherwise leaves the
engine untouched and reports no event. -/
def apply_decay (e : DecayEngine) (name : String) (now : ℚ) :
    Option DecayEvent × DecayEngine :=
  match applyDecayCore e.registry name with
  | none => (none, e)
  | some (r', dt, old, nw) =>
    let ev : DecayEvent := ⟨now, name, dt, old, nw⟩
    (some ev,
      { e with
        registry := r'
        decay_history := e.decay_history ++ [ev]
        total_decays := e.total_decays + 1
        last_decay_time := now })

/-- `DecayEngine.tick`: gate on `should_decay`, then select a target, then
apply decay to it; the stream state left behind by the gate and the
selection is carried along. -/
def tick (e : DecayEngine) (now : ℚ) : Option DecayEvent × DecayEngine :=
  match e.should_decay now with
  | (false, g) => (none, { e with rng := g })
  | (true, g) =>
    match ({ e with rng := g } : DecayEngine).select_target with
    | (none, g2) => (none, { e with rng := g2 })
    | (some n, g2) => ({ e with rng := g2 } : DecayEngine).apply_decay n now

/-- `DecayEngine.force_decay`: bypasses the interval/probability gate;
selects a target when no name is given. -/
def force_decay (e : DecayEngine) (name : Option String) (now : ℚ) :
    Option DecayEvent × DecayEngine :=
  match name with
  | some n => e.apply_decay n now
  | none =>
    match e.select_target with
    | (none, g) => (none, { e with rng := g })
    | (some n, g) => ({ e with rng := g } : DecayEngine).apply_decay n now

end DecayEngine

/-- The engine operations the lifecycle claims quantify over. -/
inductive EngOp where
  | opTick (now : ℚ)
  | opForce (name : Option String) (now : ℚ)
  | opApply (name : String) (now : ℚ)
deriving DecidableEq

/-- One engine operation, keeping only the resulting state. -/
def step (e : DecayEngine) : EngOp → DecayEngine
  | .opTick now => (e.tick now).2
  | .opForce n now => (e.force_decay n now).2
  | .opApply n now => (e.apply_decay n now).2

/-- A whole sequence of engine operations. -/
def runOps (e : DecayEngine) (ops : List EngOp) : DecayEngine :=
  ops.foldl step e

/-- `SafetyStatus` of `safety.py`. -/
inductive SafetyStatus where
  | normal
  | caution
  | warning
  | critical
  | emergency
deriving DecidableEq

/-- `SafetyLayer.MIN_CAPABILITIES`. -/
def MIN_CAPABILITIES : Nat := 1

/-- `SafetyLayer.THRESHOLDS`. -/
def threshold : SafetyStatus → ℚ
  | .normal => 60
  | .caution => 40
  | .warning => 25
  | .critical => 10
  | .emergency => 5

/-- `SafetyLayer._determine_status`; `total` stands for
`self._registry.capability_count()`, the two counters are the arguments of
the source method. -/
def determineStatus (total active essential : Nat) : SafetyStatus :=
  if total = 0 then SafetyStatus.emergency
  else
    if essential = 0 ∨ active ≤ MIN_CAPABILITIES then SafetyStatus.emergency
    else if ((active : ℚ) / (total : ℚ)) * 100 < threshold SafetyStatus.critical then
      SafetyStatus.critical
    else if ((active : ℚ) / (total : ℚ)) * 100 < threshold SafetyStatus.warning then
      SafetyStatus.warning
    else if ((active : ℚ) / (total : ℚ)) * 100 < threshold SafetyStatus.caution then
      SafetyStatus.caution
    else SafetyStatus.normal

/-- The state of `Introspector` needed by the health metric: the registry,
the names captured by `initialize()` and their count. -/
structure Introspector where
  registry : Registry
  known : List String
  initialCount : Nat
deriving DecidableEq

/-- `Introspector.initialize`: captures `list_capabilities()` and its
length. -/
def Introspector.ofRegistry (r : Registry) : Introspector :=
  { registry := r
    known := r.list_capabilities
    initialCount := r.list_capabilities.length }

/-- One iteration of the loop in `Introspector._calculate_health`: the
accumulator is `(total_weight, current_weight)`; `0.7` and `0.3` are the
exact rationals standing for the float literals. -/
def healthStep (r : Registry) (acc : ℚ × ℚ) (n : String) : ℚ × ℚ :=
  match r.lookupMeta n with
  | some m =>
    let w : ℚ := (m.importance.rank : ℚ)
    (acc.1 + w,
      acc.2 +
        (if m.degradation_level = 0 then w
         else if m.degradation_level = 1 then w * (7 / 10)
         else if m.degradation_level = 2 then w * (3 / 10)
         else 0))
  | none => acc

/-- `Introspector._calculate_health`: fold the loop body over the known
names, then `(current_weight / total_weight) * 100` with the two
100-returning guards of the source. -/
def calculateHealth (i : Introspector) : ℚ :=
  if i.initialCount = 0 then 100
  else
    let p := i.known.foldl (healthStep i.registry) (0, 0)
    if p.1 = 0 then 100 else p.2 / p.1 * 100

/-- Degradation level of a name as recorded in the registry metadata. -/
def levelOf (r : Registry) (name : String) : Option Nat :=
  (r.lookupMeta name).map CapabilityMetadata.degradation_level

/-- The recorded level exists and lies between `lo` and `3`. -/
def levelWithin (lo : Nat) (o : Option Nat) : Prop :=
  match o with
  | some l => lo ≤ l ∧ l ≤ 3
  | none => False

/-- The part of a `DecayEvent` claim C7 compares across runs: the targeted
capability name and the decay kind. -/
def eventSig (ev : DecayEvent) : String × String :=
  (ev.capability_name, ev.decay_type)

/-- `N` consecutive `tick()` calls at the given timestamps. -/
def runTicks (e : DecayEngine) (times : List ℚ) : DecayEngine :=
  times.foldl (fun e t => (e.tick t).2) e

/-- One registration, as passed to `register_function`. -/
structure RegSpec where
  name : String
  importance : Importance
  dependencies : List String
  degradation_resistance : ℚ
  description : String
deriving DecidableEq

/-- Registering a list of capabilities in order on a fresh registry. -/
def buildRegistry (specs : List RegSpec) : Registry :=
  specs.foldl
    (fun r s =>
      r.register_function s.name s.importance s.dependencies
        s.degradation_resistance s.description)
    emptyRegistry

/-- Status classification exactly as claim C2 words it: overrides force
emergency, otherwise five descending lower-bound thresholds with
`emergency` as the final else. Written from the claim, for comparison with
`determineStatus`. -/
def determineStatusClaim (total active essential : Nat) : SafetyStatus :=
  if total = 0 ∨ essential = 0 ∨ active ≤ MIN_CAPABILITIES then SafetyStatus.emergency
  else if (60 : ℚ) ≤ ((active : ℚ) / (total : ℚ)) * 100 then SafetyStatus.normal
  else if (40 : ℚ) ≤ ((active : ℚ) / (total : ℚ)) * 100 then SafetyStatus.caution
  else if (25 : ℚ) ≤ ((active : ℚ) / (total : ℚ)) * 100 then SafetyStatus.warning
  else if (10 : ℚ) ≤ ((active : ℚ) / (total : ℚ)) * 100 then SafetyStatus.critical
  else SafetyStatus.emergency

/-- Status classification as amended: the overrides are the only way to
reach `emergency`, and the percentage bands are normal at 40 and above,
caution at 25, warning at 10, critical below 10. Written independently of
`determineStatus` for comparison. -/
def determineStatusAmended (total active essential : Nat) : SafetyStatus :=
  if total = 0 ∨ essential = 0 ∨ active ≤ MIN_CAPABILITIES then SafetyStatus.emergency
  else if (40 : ℚ) ≤ ((active : ℚ) / (total : ℚ)) * 100 then SafetyStatus.normal
  else if (25 : ℚ) ≤ ((active : ℚ) / (total : ℚ)) * 100 then SafetyStatus.caution
  else if (10 : ℚ) ≤ ((active : ℚ) / (total : ℚ)) * 100 then SafetyStatus.warning
  else SafetyStatus.critical

/-- Candidate weight exactly as claim C4 words it:
`importance_weight = (N + 1 - importance_rank) / N` with `N = 5`, the
number of non-essential tiers. Written from the claim, for comparison. -/
def specCandidateWeight (m : CapabilityMetadata) : ℚ :=
  let nonEssentialTiers : ℚ := 5
  let iw : ℚ := (nonEssentialTiers + 1 - (m.importance.rank : ℚ)) / nonEssentialTiers
  let rw : ℚ := 1 - m.degradation_resistance
  let w : ℚ := iw * rw
  let w' : ℚ :=
    if m.is_degraded then w * (((3 : ℚ) - (m.degradation_level : ℚ)) / 3) else w
  ratMax (1 / 100) w'

/-- Candidate weight as amended: the same formula shape with the divisor
taken as the total number of importance tiers (six), so
`importance_weight = (T + 1 - importance_rank) / T` with `T = 6`. -/
def amendedCandidateWeight (m : CapabilityMetadata) : ℚ :=
  let allTiers : ℚ := 6
  let iw : ℚ := (allTiers + 1 - (m.importance.rank : ℚ)) / allTiers
  let rw : ℚ := 1 - m.degradation_resistance
  let w : ℚ := iw * rw
  let w' : ℚ :=
    if m.is_degraded then w * (((3 : ℚ) - (m.degradation_level : ℚ)) / 3) else w
  ratMax (1 / 100) w'

/-- Contribution factor per degradation level as claim C8 words it. -/
def healthFactor (lvl : Nat) : ℚ :=
  if lvl = 0 then 1
  else if lvl = 1 then 7 / 10
  else if lvl = 2 then 3 / 10
  else 0

/-- The importance-rank weight one known name contributes to claim C8's
denominator (0 when the metadata is missing, as the source loop skips). -/
def weightOfName (r : Registry) (n : String) : ℚ :=
  match r.lookupMeta n with
  | some m => (m.importance.rank : ℚ)
  | none => 0

/-- The weighted contribution one known name adds to claim C8's
numerator. -/
def contribOfName (r : Registry) (n : String) : ℚ :=
  match r.lookupMeta n with
  | some m => (m.importance.rank : ℚ) * healthFactor m.degradation_level
  | none => 0

/-- Sum of importance-rank weights over the capabilities known at
initialization (claim C8's denominator). -/
def weightSum (i : Introspector) : ℚ :=
  (i.known.map (weightOfName i.registry)).sum

/-- Sum of weighted contributions over the capabilities known at
initialization (claim C8's numerator). -/
def contribSum (i : Introspector) : ℚ :=
  (i.known.map (contribOfName i.registry)).sum

/-- Metadata produced by registering `"m"` at Medium importance with
resistance `1/2`. -/
def fixMetaMedium : CapabilityMetadata :=
  { name := "m"
    importance := Importance.medium
    dependencies := []
    degradation_resistance := 1 / 2
    description := ""
    has_original := true
    is_degraded := false
    degradation_level := 0
    execution_count := 0 }

/-- A registry holding only that Medium capability. -/
def fixRegMedium : Registry :=
  emptyRegistry.register_function "m" Importance.medium [] (1 / 2) ""

/-- A registry holding one Trivial capability `"f"`. -/
def fixRegF : Registry :=
  emptyRegistry.register_function "f" Importance.trivial [] 0 ""

/-- `fixRegF` after one forced decay of `"f"` (level 1, approximated). -/
def fixRegFApprox : Registry :=
  (((mkDecayEngine fixRegF 10 1 0 0).apply_decay "f" 0).2).registry

/-- A registry with an Essential capability `"core"` and a Trivial
capability `"tmp"`. -/
def fixRegCoreTmp : Registry :=
  (emptyRegistry.register_function "core" Importance.essential [] 1 "").register_function
    "tmp" Importance.trivial [] 0 ""

/-- Metadata produced by registering `"core"` at Essential importance with
resistance `1`. -/
def fixMetaCore : CapabilityMetadata :=
  { name := "core"
    importance := Importance.essential
    dependencies := []
    degradation_resistance := 1
    description := ""
    has_original := true
    is_degraded := false
    degradation_level := 0
    execution_count := 0 }

/-- An engine over `fixRegCoreTmp` with interval 10, probability 1,
seed 42, started at time 0. -/
def fixEngine : DecayEngine := mkDecayEngine fixRegCoreTmp 10 1 42 0

/-- A mixed sequence of ticks, forced decays and direct applications. -/
def fixOpsMixed : List EngOp :=
  [EngOp.opTick 20, EngOp.opForce (some "core") 21, EngOp.opForce none 40,
    EngOp.opApply "tmp" 41]

/-- Four direct decay applications to `"tmp"`. -/
def fixOpsApply : List EngOp :=
  [EngOp.opApply "tmp" 1, EngOp.opApply "tmp" 2, EngOp.opApply "tmp" 3,
    EngOp.opApply "tmp" 4]

/-- Metadata of an intact Medium capability `"a"`. -/
def fixMetaA : CapabilityMetadata :=
  { name := "a"
    importance := Importance.medium
    dependencies := []
    degradation_resistance := 0
    description := ""
    has_original := true
    is_degraded := false
    degradation_level := 0
    execution_count := 0 }

/-- Metadata of a fully deleted Trivial capability `"d"`. -/
def fixMetaD : CapabilityMetadata :=
  { name := "d"
    importance := Importance.trivial
    dependencies := []
    degradation_resistance := 0
    description := ""
    has_original := true
    is_degraded := true
    degradation_level := 3
    execution_count := 0 }

/-- A registry where `"a"` is intact and `"d"` went through the full decay
lifecycle and is deleted. -/
def fixRegAD : Registry :=
  { capabilities := [("a", Impl.wrapper "a"), ("d", Impl.stub)]
    metadata := [("a", fixMetaA), ("d", fixMetaD)]
    degraded := ["d"]
    deleted := ["d"] }

/-- Registration list shared by the determinism fixture. -/
def fixSpecs : List RegSpec :=
  [⟨"core", Importance.essential, [], 1, ""⟩,
    ⟨"tmp", Importance.trivial, [], 1 / 10, ""⟩]

/-- Tick timestamps shared by the determinism fixture. -/
def fixTimes : List ℚ := [20, 40, 60]

/-- Registry with Medium `"a"` and Trivial `"b"` freshly registered. -/
def fixRegAB : Registry :=
  (emptyRegistry.register_function "a" Importance.medium [] 0 "").register_function
    "b" Importance.trivial [] 0 ""

/-- `fixRegAB` after `"b"` is degraded to level 1. -/
def fixRegABDeg : Registry := fixRegAB.mark_degraded "b" 1

/-- An introspector initialized on `fixRegAB` and observing the registry
after `"b"` degraded. -/
def fixIntro : Introspector :=
  { registry := fixRegABDeg
    known := fixRegAB.list_capabilities
    initialCount := fixRegAB.list_capabilities.length }

theorem alookup_aupdate_ne {α : Type} (l : List (String × α)) (k x : String) (f : α → α)
    (h : x ≠ k) : alookup (aupdate l k f) x = alookup l x := by
  induction l with
  | nil => rfl
  | cons p t ih =>
    obtain ⟨k', v'⟩ := p
    by_cases hk : k' = k
    · subst hk
      have hx : ¬ k' = x := fun hc => h (hc ▸ rfl)
      simp [aupdate, alookup, hx]
    · by_cases hx : k' = x
      · simp [aupdate, alookup, hk, hx, h]
      · simp [aupdate, alookup, hk, hx, ih]

theorem alookup_aupdate_self {α : Type} (l : List (String × α)) (k : String) (f : α → α)
    (v : α) (h : alookup l k = some v) :
    alookup (aupdate l k f) k = some (f v) := by
  induction l with
  | nil => simp [alookup] at h
  | cons p t ih =>
    obtain ⟨k', v'⟩ := p
    by_cases hk : k' = k
    · subst hk
      simp [alookup] at h
      simp [aupdate, alookup, h]
    · simp [alookup, hk] at h
      simp [aupdate, alookup, hk, ih h]

theorem alookup_aset_self {α : Type} (l : List (String × α)) (k : String) (v : α) :
    alookup (aset l k v) k = some v := by
  induction l with
  | nil => simp [aset, alookup]
  | cons p t ih =>
    obtain ⟨k', v'⟩ := p
    by_cases hk : k' = k
    · simp [aset, alookup, hk]
    · simp [aset, alookup, hk, ih]

theorem aupdate_map_fst {α : Type} (l : List (String × α)) (k : String) (f : α → α) :
    (aupdate l k f).map Prod.fst = l.map Prod.fst := by
  induction l with
  | nil => rfl
  | cons p t ih =>
    obtain ⟨k', v'⟩ := p
    by_cases hk : k' = k <;> simp [aupdate, hk, ih]

theorem alookup_of_mem_nodup {α : Type} {l : List (String × α)} {p : String × α}
    (hnd : (l.map Prod.fst).Nodup) (hp : p ∈ l) : alookup l p.1 = some p.2 := by
  induction l with
  | nil => simp at hp
  | cons q t ih =>
    obtain ⟨k', v'⟩ := q
    simp only [List.map_cons, List.nodup_cons] at hnd
    rcases List.mem_cons.mp hp with h | h
    · subst h
      simp [alookup]
    · have hne : ¬ k' = p.1 := by
        intro hc
        exact hnd.1 (hc ▸ (List.mem_map.mpr ⟨p, h, rfl⟩))
      simp [alookup, hne, ih hnd.2 h]

theorem mem_insertStable {α : Type} (lt : α → α → Bool) (a x : α) (l : List α) :
    x ∈ Registry.insertStable lt a l ↔ x = a ∨ x ∈ l := by
  induction l with
  | nil => simp [Registry.insertStable]
  | cons y ys ih =>
    unfold Registry.insertStable
    by_cases h : lt a y = true
    · simp [h]
    · rw [if_neg h]
      simp only [List.mem_cons, ih]
      tauto

theorem mem_sortStable {α : Type} (lt : α → α → Bool) (l : List α) (x : α) :
    x ∈ Registry.sortStable lt l ↔ x ∈ l := by
  suffices h : ∀ (l acc : List α),
      x ∈ l.foldl (fun acc y => Registry.insertStable lt y acc) acc ↔ x ∈ acc ∨ x ∈ l by
    have := h l []
    simpa [Registry.sortStable] using this
  intro l
  induction l with
  | nil => simp
  | cons y ys ih =>
    intro acc
    simp only [List.foldl_cons, ih, mem_insertStable, List.mem_cons]
    tauto

namespace Registry

theorem mark_degraded_deleted (r : Registry) (n : String) (lvl : Nat) :
    (r.mark_degraded n lvl).deleted = r.deleted := by
  unfold mark_degraded
  split <;> rfl

theorem mark_degraded_capabilities (r : Registry) (n : String) (lvl : Nat) :
    (r.mark_degraded n lvl).capabilities = r.capabilities := by
  unfold mark_degraded
  split <;> rfl

theorem mark_degraded_meta_fst (r : Registry) (n : String) (lvl : Nat) :
    (r.mark_degraded n lvl).metadata.map Prod.fst = r.metadata.map Prod.fst := by
  unfold mark_degraded
  split
  · exact aupdate_map_fst _ _ _
  · rfl

theorem mark_degraded_lookupMeta_ne (r : Registry) (n x : String) (lvl : Nat)
    (h : x ≠ n) : (r.mark_degraded n lvl).lookupMeta x = r.lookupMeta x := by
  unfold mark_degraded lookupMeta
  split
  · exact alookup_aupdate_ne _ _ _ _ h
  · rfl

theorem mark_degraded_lookupMeta_self (r : Registry) (n : String) (lvl : Nat)
    (m : CapabilityMetadata) (h : r.lookupMeta n = some m) :
    (r.mark_degraded n lvl).lookupMeta n =
      some { m with is_degraded := true, degradation_level := lvl } := by
  unfold mark_degraded lookupMeta
  rw [if_pos]
  · exact alookup_aupdate_self _ _ _ _ h
  · exact Option.isSome_iff_exists.mpr ⟨m, h⟩

theorem mark_deleted_lookupMeta_ne (r : Registry) (n x : String) (h : x ≠ n) :
    (r.mark_deleted n).lookupMeta x = r.lookupMeta x := by
  unfold mark_deleted
  exact mark_degraded_lookupMeta_ne _ _ _ _ h

theorem mark_deleted_lookupMeta_self (r : Registry) (n : String)
    (m : CapabilityMetadata) (h : r.lookupMeta n = some m) :
    (r.mark_deleted n).lookupMeta n =
      some { m with is_degraded := true, degradation_level := 3 } := by
  unfold mark_deleted
  exact mark_degraded_lookupMeta_self _ _ _ _ h

theorem mark_deleted_meta_fst (r : Registry) (n : String) :
    (r.mark_deleted n).metadata.map Prod.fst = r.metadata.map Prod.fst := by
  unfold mark_deleted
  exact mark_degraded_meta_fst _ _ _

theorem mark_deleted_deleted_mono (r : Registry) (n x : String)
    (h : x ∈ r.deleted) : x ∈ (r.mark_deleted n).deleted := by
  unfold mark_deleted
  rw [mark_degraded_deleted]
  by_cases hn : n ∈ r.deleted <;> simp [hn, h]

theorem mark_deleted_mem_self (r : Registry) (n : String) :
    n ∈ (r.mark_deleted n).deleted := by
  unfold mark_deleted
  rw [mark_degraded_deleted]
  by_cases hn : n ∈ r.deleted <;> simp [hn]

theorem replace_capability_metadata (r : Registry) (n : String) (i : Impl) :
    (r.replace_capability n i).metadata = r.metadata := by
  unfold replace_capability
  split <;> rfl

theorem replace_capability_deleted (r : Registry) (n : String) (i : Impl) :
    (r.replace_capability n i).deleted = r.deleted := by
  unfold replace_capability
  split <;> rfl

theorem replace_capability_lookupMeta (r : Registry) (n x : String) (i : Impl) :
    (r.replace_capability n i).lookupMeta x = r.lookupMeta x := by
  unfold lookupMeta
  rw [replace_capability_metadata]

theorem get_eq_none_of_mem_deleted (r : Registry) (n : String) (h : n ∈ r.deleted) :
    r.get n = none := by
  simp [get, h]

end Registry

theorem applyDecayCore_essential (r : Registry) (n : String) (m : CapabilityMetadata)
    (hm : r.lookupMeta n = some m) (hess : m.importance = Importance.essential) :
    DecayEngine.applyDecayCore r n = none := by
  unfold DecayEngine.applyDecayCore
  rw [hm]
  simp [hess]

theorem applyDecayCore_spec (r : Registry) (t : String) (r' : Registry) (dt : String)
    (old nw : Nat) (h : DecayEngine.applyDecayCore r t = some (r', dt, old, nw)) :
    ∃ m, r.lookupMeta t = some m ∧ m.importance ≠ Importance.essential ∧
      old = m.degradation_level ∧ nw = old + 1 ∧ nw ≤ 3 ∧
      r'.lookupMeta t = some { m with is_degraded := true, degradation_level := nw } ∧
      (∀ x, x ≠ t → r'.lookupMeta x = r.lookupMeta x) ∧
      (∀ x, x ∈ r.deleted → x ∈ r'.deleted) ∧
      (nw = 3 → t ∈ r'.deleted) ∧
      r'.metadata.map Prod.fst = r.metadata.map Prod.fst := by
  unfold DecayEngine.applyDecayCore at h
  cases hm : r.lookupMeta t with
  | none => rw [hm] at h; simp at h
  | some m =>
    rw [hm] at h
    dsimp only at h
    by_cases hess : m.importance = Importance.essential
    · rw [if_pos hess] at h; simp at h
    · rw [if_neg hess] at h
      by_cases hlvl : m.degradation_level + 1 > 3
      · rw [if_pos hlvl] at h; simp at h
      · rw [if_neg hlvl] at h
        simp only [Option.some.injEq, Prod.mk.injEq] at h
        obtain ⟨hr', hdt, hold, hnw⟩ := h
        subst hold
        subst hnw
        subst hr'
        split_ifs with h1 h2 h3
        · refine ⟨m, rfl, hess, rfl, rfl, by omega, ?_, ?_, ?_, ?_, ?_⟩
          · exact Registry.mark_degraded_lookupMeta_self _ _ _ _
              (by rw [Registry.replace_capability_lookupMeta]; exact hm)
          · intro x hx
            rw [Registry.mark_degraded_lookupMeta_ne _ _ _ _ hx,
              Registry.replace_capability_lookupMeta]
          · intro x hx
            rw [Registry.mark_degraded_deleted, Registry.replace_capability_deleted]
            exact hx
          · intro hc
            exact absurd hc (by omega)
          · rw [Registry.mark_degraded_meta_fst, Registry.replace_capability_metadata]
        · refine ⟨m, rfl, hess, rfl, rfl, by omega, ?_, ?_, ?_, ?_, ?_⟩
          · exact Registry.mark_degraded_lookupMeta_self _ _ _ _ hm
          · intro x hx
            rw [Registry.mark_degraded_lookupMeta_ne _ _ _ _ hx]
          · intro x hx
            rw [Registry.mark_degraded_deleted]
            exact hx
          · intro hc
            exact absurd hc (by omega)
          · rw [Registry.mark_degraded_meta_fst]
        · refine ⟨m, rfl, hess, rfl, rfl, by omega, ?_, ?_, ?_, ?_, ?_⟩
          · exact Registry.mark_degraded_lookupMeta_self _ _ _ _
              (by rw [Registry.replace_capability_lookupMeta]; exact hm)
          · intro x hx
            rw [Registry.mark_degraded_lookupMeta_ne _ _ _ _ hx,
              Registry.replace_capability_lookupMeta]
          · intro x hx
            rw [Registry.mark_degraded_deleted, Registry.replace_capability_deleted]
            exact hx
          · intro hc
            exact absurd hc (by omega)
          · rw [Registry.mark_degraded_meta_fst, Registry.replace_capability_metadata]
        · refine ⟨m, rfl, hess, rfl, rfl, by omega, ?_, ?_, ?_, ?_, ?_⟩
          · have hself := Registry.mark_deleted_lookupMeta_self r t m hm
            have hagain := Registry.mark_degraded_lookupMeta_self _ t
              (m.degradation_level + 1) _ hself
            simpa using hagain
          · intro x hx
            rw [Registry.mark_degraded_lookupMeta_ne _ _ _ _ hx,
              Registry.mark_deleted_lookupMeta_ne _ _ _ hx]
          · intro x hx
            rw [Registry.mark_degraded_deleted]
            exact Registry.mark_deleted_deleted_mono _ _ _ hx
          · intro hc
            rw [Registry.mark_degraded_deleted]
            exact Registry.mark_deleted_mem_self _ _
          · rw [Registry.mark_degraded_meta_fst, Registry.mark_deleted_meta_fst]

theorem apply_decay_rel (R : Registry → Registry → Prop)
    (hrefl : ∀ r, R r r)
    (hpres : ∀ r t r' dt old nw,
      DecayEngine.applyDecayCore r t = some (r', dt, old, nw) → R r r')
    (e : DecayEngine) (n : String) (now : ℚ) :
    R e.registry ((e.apply_decay n now).2).registry := by
  unfold DecayEngine.apply_decay
  cases h : DecayEngine.applyDecayCore e.registry n with
  | none => simpa using hrefl e.registry
  | some q =>
    obtain ⟨r', dt, old, nw⟩ := q
    simpa using hpres _ _ _ _ _ _ h

theorem step_rel (R : Registry → Registry → Prop)
    (hrefl : ∀ r, R r r)
    (hpres : ∀ r t r' dt old nw,
      DecayEngine.applyDecayCore r t = some (r', dt, old, nw) → R r r')
    (e : DecayEngine) (op : EngOp) :
    R e.registry (step e op).registry := by
  cases op with
  | opApply n now => exact apply_decay_rel R hrefl hpres e n now
  | opTick now =>
    show R e.registry ((e.tick now).2).registry
    unfold DecayEngine.tick
    cases hbg : e.should_decay now with
    | mk b g =>
      cases b with
      | false => simpa using hrefl e.registry
      | true =>
        dsimp only
        cases hst : ({ e with rng := g } : DecayEngine).select_target with
        | mk tgt g2 =>
          cases tgt with
          | none => simpa using hrefl e.registry
          | some n =>
            simpa using apply_decay_rel R hrefl hpres { e with rng := g2 } n now
  | opForce nm now =>
    show R e.registry ((e.force_decay nm now).2).registry
    unfold DecayEngine.force_decay
    cases nm with
    | some n => exact apply_decay_rel R hrefl hpres e n now
    | none =>
      cases hst : e.select_target with
      | mk tgt g =>
        cases tgt with
        | none => simpa using hrefl e.registry
        | some n =>
          simpa using apply_decay_rel R hrefl hpres { e with rng := g } n now

theorem runOps_rel (R : Registry → Registry → Prop)
    (hrefl : ∀ r, R r r)
    (htrans : ∀ a b c, R a b → R b c → R a c)
    (hpres : ∀ r t r' dt old nw,
      DecayEngine.applyDecayCore r t = some (r', dt, old, nw) → R r r') :
    ∀ (ops : List EngOp) (e : DecayEngine), R e.registry (runOps e ops).registry := by
  intro ops
  induction ops with
  | nil => intro e; exact hrefl _
  | cons op rest ih =>
    intro e
    exact htrans _ _ _ (step_rel R hrefl hpres e op) (ih (step e op))

theorem essential_not_candidate (r : Registry) (name : String) (m : CapabilityMetadata)
    (hnd : (r.metadata.map Prod.fst).Nodup)
    (hm : r.lookupMeta name = some m)
    (hess : m.importance = Importance.essential) :
    name ∉ r.get_degradation_candidates := by
  intro hmem
  unfold Registry.get_degradation_candidates at hmem
  simp only [List.mem_map] at hmem
  obtain ⟨p, hp, hp1⟩ := hmem
  rw [mem_sortStable] at hp
  rw [List.mem_filter] at hp
  obtain ⟨hpin, hpred⟩ := hp
  simp only [Bool.and_eq_true, decide_eq_true_eq] at hpred
  have hlk : alookup r.metadata p.1 = some p.2 := alookup_of_mem_nodup hnd hpin
  rw [hp1] at hlk
  have : p.2 = m := by
    have := hlk.symm.trans hm
    exact Option.some.inj this
  exact hpred.1.1 (this ▸ hess)

/-- Claim C10: `DecayEngine.__init__` stores the given `decay_interval` and
`decay_probability` unchanged, without clamping the probability into
`[0, 1]` or flooring the interval at `1.0`; that normalization happens only
in the two property setters, so the constructed engine reports exactly the
probability it was given, out of range or not. -/
theorem c10_init_stores_raw (r : Registry) (interval prob : ℚ) (seed : Nat)
    (t0 v : ℚ) :
    (mkDecayEngine r interval prob seed t0).decay_probability = prob ∧
    (mkDecayEngine r interval prob seed t0).decay_interval = interval ∧
    ((mkDecayEngine r interval prob seed t0).setDecayProbability v).decay_probability
      = max 0 (min 1 v) ∧
    ((mkDecayEngine r interval prob seed t0).setDecayInterval v).decay_interval
      = max 1 v := by
  have hmin : ∀ a b : ℚ, ratMin a b = min a b := by
    intro a b
    rw [ratMin, min_def]
  have hmax : ∀ a b : ℚ, ratMax a b = max a b := by
    intro a b
    rw [ratMax, max_def]
  refine ⟨rfl, rfl, ?_, ?_⟩
  · show ratMax 0 (ratMin 1 v) = max 0 (min 1 v)
    rw [hmax, hmin]
  · show ratMax 1 v = max 1 v
    rw [hmax]

/-- Claim C2 as stated is false on the code: with 10 capabilities, 5 active
and 1 active essential, the health percentage is 50, which the claim's
thresholds classify as caution while `_determine_status` returns normal. -/
theorem c2_counterexample :
    determineStatus 10 5 1 = SafetyStatus.normal ∧
    determineStatusClaim 10 5 1 = SafetyStatus.caution ∧
    determineStatus 10 5 1 ≠ determineStatusClaim 10 5 1 := by
  have h1 : determineStatus 10 5 1 = SafetyStatus.normal := by
    unfold determineStatus
    norm_num [threshold, MIN_CAPABILITIES]
  have h2 : determineStatusClaim 10 5 1 = SafetyStatus.caution := by
    unfold determineStatusClaim
    norm_num [MIN_CAPABILITIES]
  refine ⟨h1, h2, ?_⟩
  rw [h1, h2]
  decide

/-- Claim C2 (amended): the overrides — zero total capabilities, zero
active essential capabilities, or active count at or below the configured
minimum (default 1) — force emergency; otherwise the status is normal for
health at or above 40, caution at or above 25, warning at or above 10, and
critical below 10; the percentage path never yields emergency. -/
theorem c2_status_amended (total active essential : Nat) :
    determineStatus total active essential
      = determineStatusAmended total active essential := by
  by_cases h0 : total = 0
  · simp [determineStatus, determineStatusAmended, h0]
  · by_cases hov : essential = 0 ∨ active ≤ MIN_CAPABILITIES
    · rcases hov with he | ha
      · simp [determineStatus, determineStatusAmended, h0, he]
      · simp [determineStatus, determineStatusAmended, h0, ha]
    · rw [not_or] at hov
      obtain ⟨he, ha⟩ := hov
      simp only [determineStatus, determineStatusAmended, threshold, if_neg h0]
      rw [if_neg (by tauto : ¬(essential = 0 ∨ active ≤ MIN_CAPABILITIES)),
        if_neg (by tauto : ¬(total = 0 ∨ essential = 0 ∨ active ≤ MIN_CAPABILITIES))]
      split_ifs with h1 h2 h3 h4 h5 h6 <;> first | rfl | (exfalso; linarith)

/-- Claim C4 as stated is false on the code: for the sole Medium candidate
with resistance one half, `select_target` computes weight
`(7 - 3) / 6 * (1 / 2) = 1/3`, while the claim's formula with N = 5
non-essential tiers gives `(5 + 1 - 3) / 5 * (1 / 2) = 3/10`. -/
theorem c4_counterexample :
    DecayEngine.candidateWeights fixRegMedium = [1 / 3] ∧
    specCandidateWeight fixMetaMedium = 3 / 10 ∧
    DecayEngine.candidateWeights fixRegMedium ≠ [specCandidateWeight fixMetaMedium] := by
  have hcands : fixRegMedium.get_degradation_candidates = ["m"] := by decide
  have hmeta : fixRegMedium.lookupMeta "m"
      = some { fixMetaMedium with
          degradation_resistance := ratMax 0 (ratMin 1 (1 / 2)) } := by
    unfold fixRegMedium Registry.register_function Registry.lookupMeta
    exact alookup_aset_self _ _ _
  have hA : DecayEngine.candidateWeights fixRegMedium = [1 / 3] := by
    unfold DecayEngine.candidateWeights
    rw [hcands, List.map_cons, List.map_nil]
    unfold DecayEngine.candidateWeight
    rw [hmeta]
    norm_num [ratMax, ratMin, fixMetaMedium, Importance.rank]
  have hB : specCandidateWeight fixMetaMedium = 3 / 10 := by
    unfold specCandidateWeight
    norm_num [ratMax, fixMetaMedium, Importance.rank]
  refine ⟨hA, hB, ?_⟩
  rw [hA, hB]
  intro hc
  rw [List.cons.injEq] at hc
  have := hc.1
  norm_num at this

/-- Claim C4 (amended): during target selection every candidate's weight is
`importance_weight * resistance_weight` with
`importance_weight = (T + 1 - importance_rank) / T` where `T = 6` is the
total number of importance tiers (not the number of non-essential tiers),
`resistance_weight = 1 - degradation_resistance`, an extra factor
`(3 - degradation_level) / 3` for already degraded candidates, and a floor
of `0.01` on every weight. -/
theorem c4_weight_amended (r : Registry) :
    DecayEngine.candidateWeights r
      = r.get_degradation_candidates.map (fun n =>
          match r.lookupMeta n with
          | some m => amendedCandidateWeight m
          | none => 1 / 100) := by
  unfold DecayEngine.candidateWeights
  apply List.map_congr_left
  intro n _
  unfold DecayEngine.candidateWeight amendedCandidateWeight
  cases r.lookupMeta n with
  | none => rfl
  | some m =>
    dsimp only
    norm_num

/-- Claim C5 as stated is false on the code: `mark_deleted` on the never
registered name "ghost" appends it to the deleted list, so the deleted list
is not unchanged. -/
theorem c5_counterexample :
    emptyRegistry.lookupMeta "ghost" = none ∧
    (emptyRegistry.mark_deleted "ghost").deleted ≠ emptyRegistry.deleted := by
  refine ⟨rfl, ?_⟩
  decide

/-- Claim C5 (amended): for a name that was never registered,
`mark_degraded` is a complete no-op, and `mark_deleted` leaves the
metadata, capability map and degraded list unchanged but appends the name
to the deleted list when absent — so it is idempotent (a second call
changes nothing) but not a no-op. -/
theorem c5_unknown_marks (r : Registry) (name : String) (lvl : Nat)
    (h : r.lookupMeta name = none) :
    r.mark_degraded name lvl = r ∧
    (r.mark_deleted name).metadata = r.metadata ∧
    (r.mark_deleted name).capabilities = r.capabilities ∧
    (r.mark_deleted name).degraded = r.degraded ∧
    (r.mark_deleted name).deleted
      = (if name ∈ r.deleted then r.deleted else r.deleted ++ [name]) ∧
    (r.mark_deleted name).mark_deleted name = r.mark_deleted name := by
  have hdeg : ∀ (r' : Registry) (lv : Nat), r'.lookupMeta name = none →
      r'.mark_degraded name lv = r' := by
    intro r' lv h'
    unfold Registry.mark_degraded
    unfold Registry.lookupMeta at h'
    rw [h']
    simp
  have hdel : ∀ (r' : Registry), r'.lookupMeta name = none →
      r'.mark_deleted name
        = { r' with deleted := if name ∈ r'.deleted then r'.deleted
              else r'.deleted ++ [name] } := by
    intro r' h'
    unfold Registry.mark_deleted
    exact hdeg _ _ h'
  refine ⟨hdeg r lvl h, ?_, ?_, ?_, ?_, ?_⟩
  · rw [hdel r h]
  · rw [hdel r h]
  · rw [hdel r h]
  · rw [hdel r h]
  · rw [hdel r h]
    rw [hdel { r with deleted := if name ∈ r.deleted then r.deleted
        else r.deleted ++ [name] } h]
    by_cases hc : name ∈ r.deleted <;> simp [hc]

/-- Witness for claim C5 (amended) at the registry holding only `"a"` and
`"d"` and the never registered name `"ghost"`. -/
theorem c5_unknown_marks_inst :
    fixRegAD.mark_degraded "ghost" 2 = fixRegAD ∧
    (fixRegAD.mark_deleted "ghost").metadata = fixRegAD.metadata ∧
    (fixRegAD.mark_deleted "ghost").capabilities = fixRegAD.capabilities ∧
    (fixRegAD.mark_deleted "ghost").degraded = fixRegAD.degraded ∧
    (fixRegAD.mark_deleted "ghost").deleted
      = (if "ghost" ∈ fixRegAD.deleted then fixRegAD.deleted
          else fixRegAD.deleted ++ ["ghost"]) ∧
    (fixRegAD.mark_deleted "ghost").mark_deleted "ghost"
      = fixRegAD.mark_deleted "ghost" :=
  c5_unknown_marks fixRegAD "ghost" 2 (by decide)

/-- Claim C6: in a registry state in which every deleted name is still a
key of the capability map — which holds for every state reached through
registration and the decay lifecycle, since `_capabilities` only ever
gains entries — `execute` produces the raised-`KeyError` "not found"
outcome exactly for the names absent from `_capabilities` (the never
registered ones), while executing a capability whose degradation level is
3 (deleted) produces the explicit non-error "unavailable" result and
changes nothing. -/
theorem c6_execute_not_found (r : Registry) (n1 n2 : String)
    (m : CapabilityMetadata)
    (hsub : ∀ n ∈ r.deleted, (alookup r.capabilities n).isSome = true)
    (hm : r.lookupMeta n2 = some m)
    (h3 : m.degradation_level = 3)
    (hdel : n2 ∈ r.deleted) :
    ((r.execute n1).1 = ExecResult.notFound ↔ alookup r.capabilities n1 = none) ∧
    (r.execute n2).1 = ExecResult.unavailable ∧ (r.execute n2).2 = r := by
  refine ⟨⟨?_, ?_⟩, ?_, ?_⟩
  · intro hex
    by_cases hd : n1 ∈ r.deleted
    · exfalso
      unfold Registry.execute at hex
      rw [if_pos hd] at hex
      simp at hex
    · unfold Registry.execute at hex
      rw [if_neg hd] at hex
      cases hc : alookup r.capabilities n1 with
      | none => rfl
      | some i =>
        rw [hc] at hex
        cases i with
        | wrapper capname =>
          dsimp only at hex
          split_ifs at hex <;> simp at hex
        | approximated => simp at hex
        | stub => simp at hex
  · intro hnone
    have hd : n1 ∉ r.deleted := by
      intro hmem
      have hs := hsub n1 hmem
      rw [hnone] at hs
      simp at hs
    unfold Registry.execute
    rw [if_neg hd, hnone]
  · unfold Registry.execute
    rw [if_pos hdel]
  · unfold Registry.execute
    rw [if_pos hdel]

/-- Witness for claim C6 at the registry where `"a"` is intact, `"d"` is
deleted at level 3, and `"x"` was never registered. -/
theorem c6_execute_not_found_inst :
    ((fixRegAD.execute "x").1 = ExecResult.notFound
      ↔ alookup fixRegAD.capabilities "x" = none) ∧
    (fixRegAD.execute "d").1 = ExecResult.unavailable ∧
    (fixRegAD.execute "d").2 = fixRegAD :=
  c6_execute_not_found fixRegAD "x" "d" fixMetaD (by decide) rfl rfl (by decide)

/-- Claim C9 as stated is false on the code: after a single decay of the
Trivial capability `"f"` its implementation is the approximation wrapper
around the original function, which does not touch the metadata, so
`execute` returns a result while `execution_count` stays at 0 instead of
increasing by one. -/
theorem c9_counterexample :
    (fixRegFApprox.lookupMeta "f").map CapabilityMetadata.degradation_level
      = some 1 ∧
    (fixRegFApprox.lookupMeta "f").map CapabilityMetadata.execution_count
      = some 0 ∧
    (fixRegFApprox.execute "f").1 = ExecResult.value ∧
    ((fixRegFApprox.execute "f").2.lookupMeta "f").map
        CapabilityMetadata.execution_count
      = some 0 := by
  refine ⟨?_, ?_, ?_, ?_⟩ <;> decide

/-- Claim C9 (amended): `execution_count` increases by exactly one per
`execute` invocation only while the stored implementation is still the
counting wrapper installed at registration (the level-0 state); once the
implementation has been replaced by the approximation or the stub,
`execute` still returns a result but leaves the registry — and so the
count — unchanged. -/
theorem c9_execution_count (r : Registry) (name : String) (i : Impl)
    (m : CapabilityMetadata)
    (hdel : name ∉ r.deleted)
    (hi : alookup r.capabilities name = some i)
    (hm : r.lookupMeta name = some m) :
    (i = Impl.wrapper name →
      (r.execute name).1 = ExecResult.value ∧
      ((r.execute name).2.lookupMeta name).map CapabilityMetadata.execution_count
        = some (m.execution_count + 1)) ∧
    (i = Impl.approximated ∨ i = Impl.stub →
      (r.execute name).1 = ExecResult.value ∧ (r.execute name).2 = r) := by
  constructor
  · intro hw
    subst hw
    unfold Registry.execute
    rw [if_neg hdel, hi]
    dsimp only
    have hs : (alookup r.metadata name).isSome = true := by
      unfold Registry.lookupMeta at hm
      rw [hm]
      rfl
    rw [if_pos hs]
    refine ⟨rfl, ?_⟩
    have hup := alookup_aupdate_self r.metadata name
      (fun mm => { mm with execution_count := mm.execution_count + 1 }) m
      (by unfold Registry.lookupMeta at hm; exact hm)
    show (alookup _ name).map _ = _
    rw [hup]
    rfl
  · rintro (hi' | hi') <;> subst hi' <;>
      (unfold Registry.execute; rw [if_neg hdel, hi]; exact ⟨rfl, rfl⟩)

/-- Witness for claim C9 (amended): at level 0 the counting wrapper of
`"f"` bumps the count from 0 to 1; after approximation the stored
implementation returns a value without touching the registry. -/
theorem c9_execution_count_inst :
    ((fixRegF.execute "f").1 = ExecResult.value ∧
      ((fixRegF.execute "f").2.lookupMeta "f").map
          CapabilityMetadata.execution_count = some 1) ∧
    ((fixRegFApprox.execute "f").1 = ExecResult.value ∧
      (fixRegFApprox.execute "f").2 = fixRegFApprox) := by
  constructor
  · exact (c9_execution_count fixRegF "f" (Impl.wrapper "f")
      { name := "f", importance := Importance.trivial, dependencies := []
        degradation_resistance := ratMax 0 (ratMin 1 0), description := ""
        has_original := true, is_degraded := false, degradation_level := 0
        execution_count := 0 }
      (by decide) rfl rfl).1 rfl
  · exact (c9_execution_count fixRegFApprox "f" Impl.approximated
      { name := "f", importance := Importance.trivial, dependencies := []
        degradation_resistance := ratMax 0 (ratMin 1 0), description := ""
        has_original := true, is_degraded := true, degradation_level := 1
        execution_count := 0 }
      (by decide) (by decide) (by decide)).2 (Or.inl rfl)

/-- Claim C7: two independent engines constructed from the same seed over
identical initial registrations, run over the same schedule of N ticks,
produce identical sequences of decay events — the same targeted names in
the same order with the same decay kinds. -/
theorem c7_deterministic (specs : List RegSpec) (interval prob : ℚ)
    (seed : Nat) (t0 : ℚ) (times : List ℚ) (e1 e2 : DecayEngine)
    (h1 : e1 = mkDecayEngine (buildRegistry specs) interval prob seed t0)
    (h2 : e2 = mkDecayEngine (buildRegistry specs) interval prob seed t0) :
    (runTicks e1 times).decay_history.map eventSig
      = (runTicks e2 times).decay_history.map eventSig := by
  subst h1
  subst h2
  rfl

/-- Witness for claim C7 at the two-capability fixture, seed 42, three
ticks. -/
theorem c7_deterministic_inst :
    (runTicks (mkDecayEngine (buildRegistry fixSpecs) 10 1 42 0)
        fixTimes).decay_history.map eventSig
      = (runTicks (mkDecayEngine (buildRegistry fixSpecs) 10 1 42 0)
          fixTimes).decay_history.map eventSig :=
  c7_deterministic fixSpecs 10 1 42 0 fixTimes _ _ rfl rfl

theorem healthStep_fold (r : Registry) (l : List String) (a b : ℚ) :
    l.foldl (healthStep r) (a, b)
      = (a + (l.map (weightOfName r)).sum, b + (l.map (contribOfName r)).sum) := by
  induction l generalizing a b with
  | nil => simp
  | cons n t ih =>
    rw [List.foldl_cons, List.map_cons, List.map_cons, List.sum_cons, List.sum_cons]
    cases hm : r.lookupMeta n with
    | none =>
      have hstep : healthStep r (a, b) n = (a, b) := by
        unfold healthStep
        rw [hm]
      have hw0 : weightOfName r n = 0 := by
        unfold weightOfName
        rw [hm]
      have hc0 : contribOfName r n = 0 := by
        unfold contribOfName
        rw [hm]
      rw [hstep, ih, hw0, hc0, zero_add, zero_add]
    | some m =>
      have hstep : healthStep r (a, b) n
          = (a + (m.importance.rank : ℚ),
             b + (if m.degradation_level = 0 then (m.importance.rank : ℚ)
                  else if m.degradation_level = 1 then
                    (m.importance.rank : ℚ) * (7 / 10)
                  else if m.degradation_level = 2 then
                    (m.importance.rank : ℚ) * (3 / 10)
                  else 0)) := by
        unfold healthStep
        rw [hm]
      have hwv : weightOfName r n = (m.importance.rank : ℚ) := by
        unfold weightOfName
        rw [hm]
      have hcv : contribOfName r n
          = (m.importance.rank : ℚ) * healthFactor m.degradation_level := by
        unfold contribOfName
        rw [hm]
      have hfac : (if m.degradation_level = 0 then (m.importance.rank : ℚ)
          else if m.degradation_level = 1 then (m.importance.rank : ℚ) * (7 / 10)
          else if m.degradation_level = 2 then (m.importance.rank : ℚ) * (3 / 10)
          else 0) = (m.importance.rank : ℚ) * healthFactor m.degradation_level := by
        unfold healthFactor
        split_ifs <;> ring
      rw [hstep, ih, hwv, hcv, hfac]
      rw [Prod.mk.injEq]
      constructor <;> ring

/-- Claim C8: health equals 100 times the sum of contributions over the
sum of weights — each capability known at initialization contributing its
importance rank weighted by 1 at level 0, 0.7 at level 1, 0.3 at level 2
and 0 at level 3 — and health equals 100 when there were zero capabilities
at initialization; the formula case is stated for a nonzero weight
denominator, which holds whenever any known capability has metadata. -/
theorem c8_health_formula (i : Introspector) :
    (i.initialCount = 0 → calculateHealth i = 100) ∧
    (i.initialCount ≠ 0 → weightSum i ≠ 0 →
      calculateHealth i = 100 * (contribSum i / weightSum i)) := by
  have hfold : i.known.foldl (healthStep i.registry) (0, 0)
      = (weightSum i, contribSum i) := by
    rw [healthStep_fold]
    unfold weightSum contribSum
    rw [zero_add, zero_add]
  constructor
  · intro h0
    unfold calculateHealth
    rw [if_pos h0]
  · intro h0 hw
    unfold calculateHealth
    rw [if_neg h0]
    dsimp only
    rw [hfold]
    dsimp only
    rw [if_neg hw]
    ring

/-- Witness for claim C8 at the introspector initialized over Medium `"a"`
and Trivial `"b"` and observing `"b"` degraded to level 1: health is
`100 * ((3 + 0.7) / 4) = 92.5`. -/
theorem c8_health_formula_inst :
    calculateHealth fixIntro = 100 * (contribSum fixIntro / weightSum fixIntro) ∧
    weightSum fixIntro = 4 ∧
    contribSum fixIntro = 37 / 10 ∧
    calculateHealth fixIntro = 185 / 2 := by
  have hknown : fixIntro.known = ["a", "b"] := by decide
  have hma : fixIntro.registry.lookupMeta "a"
      = some
        { name := "a", importance := Importance.medium, dependencies := [],
          degradation_resistance := ratMax 0 (ratMin 1 0), description := "",
          has_original := true, is_degraded := false, degradation_level := 0,
          execution_count := 0 } := by decide
  have hmb : fixIntro.registry.lookupMeta "b"
      = some
        { name := "b", importance := Importance.trivial, dependencies := [],
          degradation_resistance := ratMax 0 (ratMin 1 0), description := "",
          has_original := true, is_degraded := true, degradation_level := 1,
          execution_count := 0 } := by decide
  have hws : weightSum fixIntro = 4 := by
    unfold weightSum
    rw [hknown]
    rw [List.map_cons, List.map_cons, List.map_nil]
    unfold weightOfName
    rw [hma, hmb]
    norm_num [Importance.rank]
  have hcs : contribSum fixIntro = 37 / 10 := by
    unfold contribSum
    rw [hknown]
    rw [List.map_cons, List.map_cons, List.map_nil]
    unfold contribOfName
    rw [hma, hmb]
    norm_num [Importance.rank, healthFactor]
  have hcount : fixIntro.initialCount ≠ 0 := by decide
  have hmain := (c8_health_formula fixIntro).2 hcount (by rw [hws]; norm_num)
  refine ⟨hmain, hws, hcs, ?_⟩
  rw [hmain, hws, hcs]
  norm_num

/-- Claim C1: a capability registered at Essential importance keeps its
exact metadata — in particular degradation level 0 — across any sequence
of tick, force-decay and direct apply-decay operations; it never appears
in `get_degradation_candidates()`, neither before nor after the sequence;
and `apply_decay` on its name returns no event and leaves the whole engine
unchanged. -/
theorem c1_essential_protected (e : DecayEngine) (ops : List EngOp)
    (name : String) (m : CapabilityMetadata) (now : ℚ)
    (hnd : (e.registry.metadata.map Prod.fst).Nodup)
    (hm : e.registry.lookupMeta name = some m)
    (hess : m.importance = Importance.essential)
    (h0 : m.degradation_level = 0) :
    (runOps e ops).registry.lookupMeta name = some m ∧
    ((runOps e ops).registry.lookupMeta name).map
        CapabilityMetadata.degradation_level = some 0 ∧
    name ∉ e.registry.get_degradation_candidates ∧
    name ∉ (runOps e ops).registry.get_degradation_candidates ∧
    e.apply_decay name now = (none, e) := by
  have hrel := runOps_rel
    (fun r r' => r'.metadata.map Prod.fst = r.metadata.map Prod.fst ∧
      ∀ nm mm, r.lookupMeta nm = some mm →
        mm.importance = Importance.essential → r'.lookupMeta nm = some mm)
    (fun r => ⟨rfl, fun _ _ hl _ => hl⟩)
    (fun a b c hab hbc =>
      ⟨hbc.1.trans hab.1,
       fun nm mm hl he => hbc.2 nm mm (hab.2 nm mm hl he) he⟩)
    (fun r t r' dt old nw h => by
      obtain ⟨m0, hm0, hness, _, _, _, _, hne, _, _, hfst⟩ :=
        applyDecayCore_spec r t r' dt old nw h
      refine ⟨hfst, fun nm mm hl he => ?_⟩
      by_cases hnt : nm = t
      · subst hnt
        have hmm : mm = m0 := Option.some.inj (hl.symm.trans hm0)
        exact absurd (hmm ▸ he) hness
      · rw [hne nm hnt]
        exact hl)
    ops e
  obtain ⟨hfst, hpres⟩ := hrel
  have hafter : (runOps e ops).registry.lookupMeta name = some m :=
    hpres name m hm hess
  have hndafter : ((runOps e ops).registry.metadata.map Prod.fst).Nodup := by
    rw [hfst]
    exact hnd
  refine ⟨hafter, ?_, essential_not_candidate _ _ _ hnd hm hess,
    essential_not_candidate _ _ _ hndafter hafter hess, ?_⟩
  · rw [hafter]
    simp [h0]
  · have hnone := applyDecayCore_essential e.registry name m hm hess
    unfold DecayEngine.apply_decay
    rw [hnone]

/-- Witness for claim C1 over the Essential/Trivial fixture engine and a
mixed schedule of ticks, forced decays and direct applications. -/
theorem c1_essential_protected_inst :
    (runOps fixEngine fixOpsMixed).registry.lookupMeta "core"
      = some fixMetaCore ∧
    ((runOps fixEngine fixOpsMixed).registry.lookupMeta "core").map
        CapabilityMetadata.degradation_level = some 0 ∧
    "core" ∉ fixEngine.registry.get_degradation_candidates ∧
    "core" ∉ (runOps fixEngine fixOpsMixed).registry.get_degradation_candidates ∧
    fixEngine.apply_decay "core" 5 = (none, fixEngine) :=
  c1_essential_protected fixEngine fixOpsMixed "core" fixMetaCore 5
    (by decide) (by decide) rfl rfl

/-- Claim C3: along any sequence of apply-decay, force-decay and tick
operations, a capability's recorded degradation level never decreases and
never exceeds 3 (given it starts at most 3, as registration guarantees
with level 0, and that level 3 means the name is already on the deleted
list, as the decay path guarantees); and whenever the level has reached 3,
`get` on the name returns `None`. -/
theorem c3_level_monotone (e : DecayEngine) (ops : List EngOp) (name : String)
    (l : Nat)
    (hl : levelOf e.registry name = some l)
    (h3 : l ≤ 3)
    (hd : l = 3 → name ∈ e.registry.deleted) :
    levelWithin l (levelOf (runOps e ops).registry name) ∧
    (levelOf (runOps e ops).registry name = some 3 →
      (runOps e ops).registry.get name = none) := by
  have hrel := runOps_rel
    (fun r r' => ∀ nm lv, levelOf r nm = some lv → lv ≤ 3 →
      (lv = 3 → nm ∈ r.deleted) →
      ∃ lv', levelOf r' nm = some lv' ∧ lv ≤ lv' ∧ lv' ≤ 3 ∧
        (lv' = 3 → nm ∈ r'.deleted))
    (fun r nm lv hlv h3' hd' => ⟨lv, hlv, le_refl _, h3', hd'⟩)
    (fun a b c hab hbc nm lv hlv h3' hd' => by
      obtain ⟨lv1, h1, hle1, h31, hd1⟩ := hab nm lv hlv h3' hd'
      obtain ⟨lv2, h2, hle2, h32, hd2⟩ := hbc nm lv1 h1 h31 hd1
      exact ⟨lv2, h2, le_trans hle1 hle2, h32, hd2⟩)
    (fun r t r' dt old nw h nm lv hlv h3' hd' => by
      obtain ⟨m0, hm0, _, hold, hnw, hnw3, hself, hne, hdelmono, hnw3mem, _⟩ :=
        applyDecayCore_spec r t r' dt old nw h
      by_cases hnt : nm = t
      · subst hnt
        have hmv : m0.degradation_level = lv := by
          unfold levelOf at hlv
          rw [hm0] at hlv
          exact Option.some.inj hlv
        refine ⟨nw, ?_, by omega, hnw3, hnw3mem⟩
        unfold levelOf
        rw [hself]
        rfl
      · refine ⟨lv, ?_, le_refl _, h3', fun h3n => hdelmono nm (hd' h3n)⟩
        unfold levelOf at hlv ⊢
        rw [hne nm hnt]
        exact hlv)
    ops e
  obtain ⟨lv', hlv', hle, h3', hdel'⟩ := hrel name l hl h3 hd
  constructor
  · unfold levelWithin
    rw [hlv']
    exact ⟨hle, h3'⟩
  · intro hafter3
    have h33 : lv' = 3 := by
      rw [hlv'] at hafter3
      exact Option.some.inj hafter3
    exact Registry.get_eq_none_of_mem_deleted _ _ (hdel' h33)

/-- Witness for claim C3: four consecutive direct decays of `"tmp"` drive
its level from 0 to exactly 3 (the fourth is a no-op) and `get` then
reports it absent. -/
theorem c3_level_monotone_inst :
    levelWithin 0 (levelOf (runOps fixEngine fixOpsApply).registry "tmp") ∧
    (runOps fixEngine fixOpsApply).registry.get "tmp" = none := by
  have h := c3_level_monotone fixEngine fixOpsApply "tmp" 0
    (by decide) (by decide) (by decide)
  exact ⟨h.1, h.2 (by decide)⟩

end Lethe
